import Mathlib

/-!
Verification of the constraint-based layout solver and scrollbar geometry
of the ratatui repository, against its natural-language specification.

The repository sources provide the `Flex` enumeration
(`ratatui-core/src/layout/flex.rs`) together with its documented behaviour;
the solver itself and the scrollbar geometry are specified in the spec
(sections 3, 4.1, 4.2) and are modelled here from the spec's words.
-/

set_option maxHeartbeats 1000000

namespace Ratatui

/-- Rounded division of naturals: nearest integer, ties rounding away from
zero (hence half-up on non-negative values), the rounding policy pinned by
the spec. A zero divisor yields 0 (saturating convention, never reached on
validated input). -/
def roundDiv (a b : Nat) : Nat := (2 * a + b) / (2 * b)

/-- Ceiling division of naturals; a zero divisor yields 0. -/
def ceilDiv (a b : Nat) : Nat := (a + b - 1) / b

lemma ceilDiv_mono (w : Nat) {a b : Nat} (h : a ≤ b) : ceilDiv a w ≤ ceilDiv b w := by
  unfold ceilDiv
  exact Nat.div_le_div_right (by omega)

lemma ceilDiv_zero_left (w : Nat) : ceilDiv 0 w = 0 := by
  unfold ceilDiv
  rcases Nat.eq_zero_or_pos w with h | h
  · simp [h]
  · exact Nat.div_eq_of_lt (by omega)

lemma ceilDiv_mul_self (a : Nat) {k : Nat} (hk : 0 < k) : ceilDiv (a * k) k = a := by
  unfold ceilDiv
  have h1 : a * k + k - 1 = (k - 1) + a * k := by omega
  rw [h1, Nat.add_mul_div_right _ _ hk, Nat.div_eq_of_lt (by omega)]
  omega

/-- Cumulative weighted allocation: slot `x` (with running weight prefix
`acc`, total weight `w`) receives the difference of consecutive rounded-up
prefix shares of `a`, so the whole list always sums to exactly `a`.
Earlier slots receive the rounding remainder (remainder-to-earliest, as the
spec's rounding policy requires). -/
def splitWAux (a w : Nat) : Nat → List Nat → List Nat
  | _, [] => []
  | acc, x :: xs =>
    (ceilDiv (a * (acc + x)) w - ceilDiv (a * acc) w) :: splitWAux a w (acc + x) xs

/-- Distribute `a` units over `k` slots evenly, remainder to the earliest
slots. -/
def splitEven (a k : Nat) : List Nat := splitWAux a k 0 (List.replicate k 1)

/-- Distribute `a` units over slots proportionally to `ws`; when every
weight is zero, distribute evenly instead. Always sums to exactly `a` for a
nonempty slot list. -/
def splitWeighted (a : Nat) (ws : List Nat) : List Nat :=
  if ws.sum = 0 then splitEven a ws.length else splitWAux a ws.sum 0 ws

lemma splitWAux_length (a w acc : Nat) (ws : List Nat) :
    (splitWAux a w acc ws).length = ws.length := by
  induction ws generalizing acc with
  | nil => rfl
  | cons x xs ih => simp [splitWAux, ih]

lemma splitWAux_sum (a w : Nat) (ws : List Nat) (acc : Nat) :
    (splitWAux a w acc ws).sum = ceilDiv (a * (acc + ws.sum)) w - ceilDiv (a * acc) w := by
  induction ws generalizing acc with
  | nil => simp [splitWAux]
  | cons x xs ih =>
    have h1 : ceilDiv (a * acc) w ≤ ceilDiv (a * (acc + x)) w :=
      ceilDiv_mono w (Nat.mul_le_mul_left _ (by omega))
    have h2 : ceilDiv (a * (acc + x)) w ≤ ceilDiv (a * (acc + x + xs.sum)) w :=
      ceilDiv_mono w (Nat.mul_le_mul_left _ (by omega))
    have h3 : acc + (x + xs.sum) = acc + x + xs.sum := by omega
    simp only [splitWAux, List.sum_cons, ih, h3]
    omega

lemma splitEven_length (a k : Nat) : (splitEven a k).length = k := by
  simp [splitEven, splitWAux_length]

lemma splitEven_sum (a : Nat) {k : Nat} (hk : 0 < k) : (splitEven a k).sum = a := by
  unfold splitEven
  rw [splitWAux_sum]
  simp [List.sum_replicate, ceilDiv_zero_left, ceilDiv_mul_self a hk]

lemma splitWeighted_length (a : Nat) (ws : List Nat) :
    (splitWeighted a ws).length = ws.length := by
  unfold splitWeighted
  split <;> simp [splitEven_length, splitWAux_length]

lemma splitWeighted_sum (a : Nat) {ws : List Nat} (h : ws ≠ []) :
    (splitWeighted a ws).sum = a := by
  unfold splitWeighted
  have hk : 0 < ws.length := List.length_pos.mpr h
  split
  · exact splitEven_sum a hk
  · rename_i hw
    rw [splitWAux_sum]
    have hwpos : 0 < ws.sum := Nat.pos_of_ne_zero hw
    simp [ceilDiv_zero_left, Nat.zero_add, ceilDiv_mul_self a hwpos]

/-- The constraint vocabulary of the layout engine, a closed sum type
mirroring `Constraint` of the repository (spec section 3): `Length` exact
size, `Percentage` of the container, `Ratio` of the container, `Min` floor,
`Max` ceiling, `Fill` weighted leftover absorber. -/
inductive Constraint where
  | length (v : Nat)
  | percentage (p : Nat)
  | ratio (num den : Nat)
  | min (v : Nat)
  | max (v : Nat)
  | fill (w : Nat)
  deriving DecidableEq, Repr

/-- The justification policies, a closed enumeration mirroring `Flex` in
`ratatui-core/src/layout/flex.rs` (variants `Legacy`, `Start`, `End`,
`Center`, `SpaceBetween`, `SpaceEvenly`, `SpaceAround`). -/
inductive Flex where
  | legacy
  | start
  | end_
  | center
  | spaceBetween
  | spaceEvenly
  | spaceAround
  deriving DecidableEq, Repr

/-- One resolved output segment: offset and length on the axis. -/
structure Segment where
  offset : Nat
  length : Nat
  deriving DecidableEq, Repr

/-- Priority rank of a constraint's tier in the deficit-shrink order of the
spec (section 3 invariant): Fill shrinks first (rank 0), then Ratio,
Percentage, Length, Max, and Min shrinks last (rank 5). -/
def tierOf : Constraint → Nat
  | .fill _ => 0
  | .ratio _ _ => 1
  | .percentage _ => 2
  | .length _ => 3
  | .max _ => 4
  | .min _ => 5

/-- Boolean membership test for the tier of rank `k`. -/
def tierP (k : Nat) : Constraint → Bool := fun c => tierOf c == k

lemma tierP_disjoint {j k : Nat} (hjk : j ≠ k) (c : Constraint)
    (h : tierP j c = true) : tierP k c = false := by
  simp only [tierP, beq_iff_eq] at h
  simp only [tierP, h]
  exact beq_false_of_ne hjk

lemma tierOf_lt_six (c : Constraint) : tierOf c < 6 := by
  cases c <;> simp [tierOf]

/-- Declared weight of a `Fill` constraint (0 for the other variants). -/
def fillWeight : Constraint → Nat
  | .fill w => w
  | _ => 0

/-- Declared floor of a `Min` constraint (0 for the other variants). -/
def minFloor : Constraint → Nat
  | .min v => v
  | _ => 0

/-- Modelled from the spec: the missing layout-solver baseline computation
(spec section 4.1 step 2) that is not under `src/`. Each constraint's
baseline size against the distributable length `d`: `Length` its value,
`Percentage` and `Ratio` proportional with rounding to nearest (ties away
from zero), `Min` and `Max` their bound, `Fill` zero (pure leftover
absorber). -/
def baseline (d : Nat) : Constraint → Nat
  | .length v => v
  | .percentage p => roundDiv (p * d) 100
  | .ratio num den => roundDiv (d * num) den
  | .min v => v
  | .max v => v
  | .fill _ => 0

/-- Sizes currently assigned to the members of tier `p`, in list order. -/
def tierSizes (p : Constraint → Bool) (l : List (Constraint × Nat)) : List Nat :=
  (l.filter fun e => p e.1).map Prod.snd

/-- Replace, positionally, the sizes of the members of tier `p` by the
values `vs` (other entries are untouched; surplus entries of either side
are left as they are). -/
def setTier (p : Constraint → Bool) : List (Constraint × Nat) → List Nat → List (Constraint × Nat)
  | [], _ => []
  | e :: rest, vs =>
    if p e.1 then
      match vs with
      | [] => e :: setTier p rest []
      | v :: vs2 => (e.1, v) :: setTier p rest vs2
    else e :: setTier p rest vs

/-- Add, positionally, the values `vs` to the sizes of the members of tier
`p`. -/
def addTier (p : Constraint → Bool) : List (Constraint × Nat) → List Nat → List (Constraint × Nat)
  | [], _ => []
  | e :: rest, vs =>
    if p e.1 then
      match vs with
      | [] => e :: addTier p rest []
      | v :: vs2 => (e.1, e.2 + v) :: addTier p rest vs2
    else e :: addTier p rest vs

/-- Add `a` to the size stored at position `i`. -/
def addAt : List (Constraint × Nat) → Nat → Nat → List (Constraint × Nat)
  | [], _, _ => []
  | e :: rest, 0, a => (e.1, e.2 + a) :: rest
  | e :: rest, i + 1, a => e :: addAt rest i a

lemma setTier_fst (p : Constraint → Bool) (l : List (Constraint × Nat)) (vs : List Nat) :
    (setTier p l vs).map Prod.fst = l.map Prod.fst := by
  induction l generalizing vs with
  | nil => rfl
  | cons e rest ih =>
    unfold setTier
    split
    · cases vs <;> simp [ih]
    · simp [ih]

lemma setTier_length (p : Constraint → Bool) (l : List (Constraint × Nat)) (vs : List Nat) :
    (setTier p l vs).length = l.length := by
  have h := congrArg List.length (setTier_fst p l vs)
  simpa using h

lemma setTier_sum (p : Constraint → Bool) (l : List (Constraint × Nat)) (vs : List Nat)
    (h : vs.length = l.countP fun e => p e.1) :
    ((setTier p l vs).map Prod.snd).sum + (tierSizes p l).sum
      = (l.map Prod.snd).sum + vs.sum := by
  induction l generalizing vs with
  | nil =>
    simp only [List.countP_nil, List.length_eq_zero] at h
    simp [setTier, tierSizes, h]
  | cons e rest ih =>
    rw [List.countP_cons] at h
    cases hp : p e.1 with
    | true =>
      simp only [hp, if_true] at h
      cases vs with
      | nil => simp at h
      | cons v vs2 =>
        have h2 : vs2.length = rest.countP fun e => p e.1 := by simpa using h
        have hrec := ih vs2 h2
        simp only [setTier, hp, if_true, tierSizes, List.filter_cons, List.map_cons,
          List.sum_cons]
        simp only [tierSizes] at hrec
        omega
    | false =>
      simp only [hp, if_false, add_zero] at h
      have hrec := ih vs h
      simp only [setTier, hp, if_false, Bool.false_eq_true, tierSizes, List.filter_cons,
        List.map_cons, List.sum_cons]
      simp only [tierSizes] at hrec
      omega

lemma setTier_get?_ne (p : Constraint → Bool) (l : List (Constraint × Nat)) (vs : List Nat)
    (i : Nat) (e : Constraint × Nat) (he : l.get? i = some e) (hne : p e.1 = false) :
    (setTier p l vs).get? i = some e := by
  induction l generalizing vs i with
  | nil => simp at he
  | cons hd rest ih =>
    cases i with
    | zero =>
      have hhd : hd = e := by simpa using he
      subst hhd
      have hs : setTier p (hd :: rest) vs = hd :: setTier p rest vs := by
        simp [setTier, hne]
      simp [hs]
    | succ j =>
      have hj : rest.get? j = some e := by simpa using he
      cases hp : p hd.1 with
      | true =>
        cases vs with
        | nil =>
          have hs : setTier p (hd :: rest) [] = hd :: setTier p rest [] := by
            simp [setTier, hp]
          simpa [hs] using ih [] j hj
        | cons v vs2 =>
          have hs : setTier p (hd :: rest) (v :: vs2) = (hd.1, v) :: setTier p rest vs2 := by
            simp [setTier, hp]
          simpa [hs] using ih vs2 j hj
      | false =>
        have hs : setTier p (hd :: rest) vs = hd :: setTier p rest vs := by
          simp [setTier, hp]
        simpa [hs] using ih vs j hj

lemma setTier_self (p : Constraint → Bool) (l : List (Constraint × Nat)) :
    setTier p l (tierSizes p l) = l := by
  induction l with
  | nil => rfl
  | cons e rest ih =>
    cases hp : p e.1 with
    | true =>
      have ht : tierSizes p (e :: rest) = e.2 :: tierSizes p rest := by
        simp [tierSizes, List.filter_cons, hp]
      rw [ht]
      have : setTier p (e :: rest) (e.2 :: tierSizes p rest)
          = (e.1, e.2) :: setTier p rest (tierSizes p rest) := by
        simp [setTier, hp]
      rw [this, ih]
    | false =>
      have ht : tierSizes p (e :: rest) = tierSizes p rest := by
        simp [tierSizes, List.filter_cons, hp]
      rw [ht]
      have : setTier p (e :: rest) (tierSizes p rest)
          = e :: setTier p rest (tierSizes p rest) := by
        simp [setTier, hp]
      rw [this, ih]

lemma tierSizes_setTier_disjoint (p q : Constraint → Bool)
    (hdis : ∀ c, q c = true → p c = false)
    (l : List (Constraint × Nat)) (vs : List Nat) :
    tierSizes q (setTier p l vs) = tierSizes q l := by
  induction l generalizing vs with
  | nil => rfl
  | cons e rest ih =>
    cases hp : p e.1 with
    | true =>
      have hq : q e.1 = false := by
        cases hqe : q e.1 with
        | true => rw [hdis e.1 hqe] at hp; exact absurd hp (by simp)
        | false => rfl
      cases vs with
      | nil =>
        have hs : setTier p (e :: rest) [] = e :: setTier p rest [] := by
          simp [setTier, hp]
        simp [hs, tierSizes, List.filter_cons, hq]
        simpa [tierSizes] using ih []
      | cons v vs2 =>
        have hs : setTier p (e :: rest) (v :: vs2) = (e.1, v) :: setTier p rest vs2 := by
          simp [setTier, hp]
        simp [hs, tierSizes, List.filter_cons, hq]
        simpa [tierSizes] using ih vs2
    | false =>
      have hs : setTier p (e :: rest) vs = e :: setTier p rest vs := by
        simp [setTier, hp]
      cases hq : q e.1 with
      | true =>
        simp [hs, tierSizes, List.filter_cons, hq]
        simpa [tierSizes] using ih vs
      | false =>
        simp [hs, tierSizes, List.filter_cons, hq]
        simpa [tierSizes] using ih vs

lemma addTier_fst (p : Constraint → Bool) (l : List (Constraint × Nat)) (vs : List Nat) :
    (addTier p l vs).map Prod.fst = l.map Prod.fst := by
  induction l generalizing vs with
  | nil => rfl
  | cons e rest ih =>
    cases hp : p e.1 with
    | true => cases vs <;> simp [addTier, hp, ih]
    | false => simp [addTier, hp, ih]

lemma addTier_length (p : Constraint → Bool) (l : List (Constraint × Nat)) (vs : List Nat) :
    (addTier p l vs).length = l.length := by
  have h := congrArg List.length (addTier_fst p l vs)
  simpa using h

lemma addTier_sum (p : Constraint → Bool) (l : List (Constraint × Nat)) (vs : List Nat)
    (h : vs.length = l.countP fun e => p e.1) :
    ((addTier p l vs).map Prod.snd).sum = (l.map Prod.snd).sum + vs.sum := by
  induction l generalizing vs with
  | nil =>
    simp only [List.countP_nil, List.length_eq_zero] at h
    simp [addTier, h]
  | cons e rest ih =>
    rw [List.countP_cons] at h
    cases hp : p e.1 with
    | true =>
      simp only [hp, if_true] at h
      cases vs with
      | nil => simp at h
      | cons v vs2 =>
        have h2 : vs2.length = rest.countP fun e => p e.1 := by simpa using h
        have hrec := ih vs2 h2
        simp only [addTier, hp, if_true, List.map_cons, List.sum_cons, hrec]
        omega
    | false =>
      simp only [hp, if_false, add_zero] at h
      have hrec := ih vs h
      simp only [addTier, hp, if_false, Bool.false_eq_true, List.map_cons, List.sum_cons, hrec]
      omega

lemma addTier_get?_ge (p : Constraint → Bool) (l : List (Constraint × Nat)) (vs : List Nat)
    (i : Nat) (e : Constraint × Nat) (he : l.get? i = some e) :
    ∃ e2, (addTier p l vs).get? i = some e2 ∧ e2.1 = e.1 ∧ e.2 ≤ e2.2 := by
  induction l generalizing vs i with
  | nil => simp at he
  | cons hd rest ih =>
    cases i with
    | zero =>
      have hhd : hd = e := by simpa using he
      subst hhd
      cases hp : p hd.1 with
      | true =>
        cases vs with
        | nil =>
          refine ⟨hd, ?_, rfl, le_refl _⟩
          have hs : addTier p (hd :: rest) [] = hd :: addTier p rest [] := by
            simp [addTier, hp]
          simp [hs]
        | cons v vs2 =>
          refine ⟨(hd.1, hd.2 + v), ?_, rfl, by omega⟩
          have hs : addTier p (hd :: rest) (v :: vs2)
              = (hd.1, hd.2 + v) :: addTier p rest vs2 := by
            simp [addTier, hp]
          simp [hs]
      | false =>
        refine ⟨hd, ?_, rfl, le_refl _⟩
        have hs : addTier p (hd :: rest) vs = hd :: addTier p rest vs := by
          simp [addTier, hp]
        simp [hs]
    | succ j =>
      have hj : rest.get? j = some e := by simpa using he
      cases hp : p hd.1 with
      | true =>
        cases vs with
        | nil =>
          have hs : addTier p (hd :: rest) [] = hd :: addTier p rest [] := by
            simp [addTier, hp]
          simpa [hs] using ih [] j hj
        | cons v vs2 =>
          have hs : addTier p (hd :: rest) (v :: vs2)
              = (hd.1, hd.2 + v) :: addTier p rest vs2 := by
            simp [addTier, hp]
          simpa [hs] using ih vs2 j hj
      | false =>
        have hs : addTier p (hd :: rest) vs = hd :: addTier p rest vs := by
          simp [addTier, hp]
        simpa [hs] using ih vs j hj

lemma addAt_fst (l : List (Constraint × Nat)) (i a : Nat) :
    (addAt l i a).map Prod.fst = l.map Prod.fst := by
  induction l generalizing i with
  | nil => rfl
  | cons e rest ih =>
    cases i with
    | zero => simp [addAt]
    | succ j => simp [addAt, ih]

lemma addAt_length (l : List (Constraint × Nat)) (i a : Nat) :
    (addAt l i a).length = l.length := by
  have h := congrArg List.length (addAt_fst l i a)
  simpa using h

lemma addAt_sum (l : List (Constraint × Nat)) (i a : Nat) (hi : i < l.length) :
    ((addAt l i a).map Prod.snd).sum = (l.map Prod.snd).sum + a := by
  induction l generalizing i with
  | nil => simp at hi
  | cons e rest ih =>
    cases i with
    | zero => simp [addAt]; omega
    | succ j =>
      have hj : j < rest.length := by simpa using hi
      simp [addAt, ih j hj]
      omega

lemma addAt_get?_ge (l : List (Constraint × Nat)) (i a : Nat)
    (j : Nat) (e : Constraint × Nat) (he : l.get? j = some e) :
    ∃ e2, (addAt l i a).get? j = some e2 ∧ e2.1 = e.1 ∧ e.2 ≤ e2.2 := by
  induction l generalizing i j with
  | nil => simp at he
  | cons hd rest ih =>
    cases i with
    | zero =>
      cases j with
      | zero =>
        have hhd : hd = e := by simpa using he
        subst hhd
        exact ⟨(hd.1, hd.2 + a), by simp [addAt], rfl, by omega⟩
      | succ k =>
        have hk : rest.get? k = some e := by simpa using he
        exact ⟨e, by simpa [addAt] using hk, rfl, le_refl _⟩
    | succ i2 =>
      cases j with
      | zero =>
        have hhd : hd = e := by simpa using he
        subst hhd
        exact ⟨hd, by simp [addAt], rfl, le_refl _⟩
      | succ k =>
        have hk : rest.get? k = some e := by simpa using he
        simpa [addAt] using ih i2 k hk

/-- One pass of even shrinking: the member at position `i` loses `q` units,
plus one extra unit for the first `r` positions (remainder-to-earliest),
saturating at zero. -/
def evenRound (q r : Nat) : Nat → List Nat → List Nat
  | _, [] => []
  | i, s :: ss => (s - (q + if i < r then 1 else 0)) :: evenRound q r (i + 1) ss

/-- Left-to-right saturating removal of `t` units. -/
def greedyShrink : List Nat → Nat → List Nat
  | [], _ => []
  | s :: ss, t => (s - t) :: greedyShrink ss (t - s)

/-- Modelled from the spec: the missing within-tier deficit distribution of
the layout solver (spec section 4.1 step 5), which is not under `src/`.
Removes exactly `min t sum` units from the tier's sizes: an even share per
member with the remainder biased to the earliest members, saturating at
zero, then any units freed by saturation are re-absorbed left to right
(the spec, section 9, leaves the exact within-tier remainder rule to the
implementation as long as it is deterministic). -/
def tierShrink (ss : List Nat) (t : Nat) : List Nat :=
  if ss.length = 0 then ss
  else
    let ss2 := evenRound (t / ss.length) (t % ss.length) 0 ss
    greedyShrink ss2 (t - (ss.sum - ss2.sum))

lemma evenRound_length (q r i : Nat) (ss : List Nat) :
    (evenRound q r i ss).length = ss.length := by
  induction ss generalizing i with
  | nil => rfl
  | cons s ss ih => simp [evenRound, ih]

lemma evenRound_sum_le (q r i : Nat) (ss : List Nat) :
    (evenRound q r i ss).sum ≤ ss.sum := by
  induction ss generalizing i with
  | nil => simp [evenRound]
  | cons s ss ih =>
    simp only [evenRound, List.sum_cons]
    have := ih (i + 1)
    omega

lemma evenRound_sum_ge (q r : Nat) (ss : List Nat) (i : Nat) :
    ss.sum ≤ (evenRound q r i ss).sum + q * ss.length + (r - i) := by
  induction ss generalizing i with
  | nil => simp [evenRound]
  | cons s ss ih =>
    simp only [evenRound, List.sum_cons, List.length_cons]
    have hrec := ih (i + 1)
    by_cases hir : i < r
    · simp only [hir, if_true]
      have : q * (ss.length + 1) = q * ss.length + q := by ring
      omega
    · simp only [hir, if_false]
      have : q * (ss.length + 1) = q * ss.length + q := by ring
      omega

lemma evenRound_zero (i : Nat) (ss : List Nat) : evenRound 0 0 i ss = ss := by
  induction ss generalizing i with
  | nil => rfl
  | cons s ss ih => simp [evenRound, ih]

lemma greedyShrink_length (ss : List Nat) (t : Nat) :
    (greedyShrink ss t).length = ss.length := by
  induction ss generalizing t with
  | nil => rfl
  | cons s ss ih => simp [greedyShrink, ih]

lemma greedyShrink_sum (ss : List Nat) (t : Nat) :
    (greedyShrink ss t).sum = ss.sum - t := by
  induction ss generalizing t with
  | nil => simp [greedyShrink]
  | cons s ss ih =>
    simp only [greedyShrink, List.sum_cons, ih]
    omega

lemma greedyShrink_zero (ss : List Nat) : greedyShrink ss 0 = ss := by
  induction ss with
  | nil => rfl
  | cons s ss ih => simp [greedyShrink, ih]

lemma tierShrink_length (ss : List Nat) (t : Nat) :
    (tierShrink ss t).length = ss.length := by
  unfold tierShrink
  split
  · rfl
  · simp [greedyShrink_length, evenRound_length]

lemma tierShrink_sum (ss : List Nat) (t : Nat) (h : t ≤ ss.sum) :
    (tierShrink ss t).sum = ss.sum - t := by
  unfold tierShrink
  split
  · rename_i hlen
    have : ss = [] := List.length_eq_zero.mp (by omega)
    subst this
    simp at h
    simp [h]
  · rename_i hlen
    have hpos : 0 < ss.length := by omega
    rw [greedyShrink_sum]
    have hle := evenRound_sum_le (t / ss.length) (t % ss.length) 0 ss
    have hge := evenRound_sum_ge (t / ss.length) (t % ss.length) ss 0
    have hdm : t / ss.length * ss.length + t % ss.length = t := by
      rw [Nat.mul_comm]
      exact Nat.div_add_mod t ss.length
    omega

lemma tierShrink_zero (ss : List Nat) : tierShrink ss 0 = ss := by
  unfold tierShrink
  split
  · rfl
  · rename_i hlen
    have hq : 0 / ss.length = 0 := Nat.zero_div _
    have hr : 0 % ss.length = 0 := Nat.zero_mod _
    rw [hq, hr, evenRound_zero]
    simp [greedyShrink_zero]

lemma tierSizes_length (p : Constraint → Bool) (l : List (Constraint × Nat)) :
    (tierSizes p l).length = l.countP fun e => p e.1 := by
  simp [tierSizes, List.countP_eq_length_filter]

lemma min_eq_sub (a b : Nat) : Nat.min a b = a - (a - b) := by
  show (if a ≤ b then a else b) = a - (a - b)
  split <;> omega

/-- Modelled from the spec: one step of the missing deficit pass of the
layout solver (spec section 4.1 step 5), not under `src/`. The tier `p`
absorbs as much of the pending deficit as its current sizes allow (members
saturate at zero); the remaining deficit is passed on to the next tier. -/
def shrinkStep (p : Constraint → Bool) (s : List (Constraint × Nat) × Nat) :
    List (Constraint × Nat) × Nat :=
  (setTier p s.1 (tierShrink (tierSizes p s.1) (Nat.min s.2 (tierSizes p s.1).sum)),
   s.2 - (tierSizes p s.1).sum)

lemma shrinkStep_fst (p : Constraint → Bool) (s : List (Constraint × Nat) × Nat) :
    (shrinkStep p s).1.map Prod.fst = s.1.map Prod.fst := by
  unfold shrinkStep
  exact setTier_fst p s.1 _

lemma shrinkStep_sum (p : Constraint → Bool) (s : List (Constraint × Nat) × Nat) :
    ((shrinkStep p s).1.map Prod.snd).sum
      = (s.1.map Prod.snd).sum - Nat.min s.2 (tierSizes p s.1).sum := by
  have hlen : (tierShrink (tierSizes p s.1) (Nat.min s.2 (tierSizes p s.1).sum)).length
      = s.1.countP fun e => p e.1 := by
    rw [tierShrink_length, tierSizes_length]
  have hst := setTier_sum p s.1 _ hlen
  have hts := tierShrink_sum (tierSizes p s.1) (Nat.min s.2 (tierSizes p s.1).sum)
    (Nat.min_le_right _ _)
  have hkey : (shrinkStep p s).1
      = setTier p s.1 (tierShrink (tierSizes p s.1) (Nat.min s.2 (tierSizes p s.1).sum)) := rfl
  rw [hkey]
  simp only [min_eq_sub] at hst hts ⊢
  omega

lemma shrinkStep_snd (p : Constraint → Bool) (s : List (Constraint × Nat) × Nat) :
    (shrinkStep p s).2 = s.2 - (tierSizes p s.1).sum := rfl

lemma shrinkStep_invariant (p : Constraint → Bool) (s : List (Constraint × Nat) × Nat)
    (h : s.2 ≤ (s.1.map Prod.snd).sum) :
    ((shrinkStep p s).1.map Prod.snd).sum + s.2
        = (s.1.map Prod.snd).sum + (shrinkStep p s).2
    ∧ (shrinkStep p s).2 ≤ ((shrinkStep p s).1.map Prod.snd).sum := by
  have hsum := shrinkStep_sum p s
  have hsnd := shrinkStep_snd p s
  simp only [min_eq_sub] at hsum
  omega

lemma shrinkStep_zero (p : Constraint → Bool) (s : List (Constraint × Nat) × Nat)
    (h : s.2 = 0) : (shrinkStep p s).1 = s.1 := by
  unfold shrinkStep
  simp only [h, Nat.zero_min, tierShrink_zero]
  exact setTier_self p s.1

lemma shrinkStep_get?_ne (p : Constraint → Bool) (s : List (Constraint × Nat) × Nat)
    (i : Nat) (e : Constraint × Nat) (he : s.1.get? i = some e) (hne : p e.1 = false) :
    (shrinkStep p s).1.get? i = some e := by
  unfold shrinkStep
  exact setTier_get?_ne p s.1 _ i e he hne

lemma shrinkStep_tier (k m : Nat) (hkm : k ≠ m) (s : List (Constraint × Nat) × Nat) :
    tierSizes (tierP k) ((shrinkStep (tierP m) s).1) = tierSizes (tierP k) s.1 := by
  unfold shrinkStep
  exact tierSizes_setTier_disjoint (tierP m) (tierP k)
    (fun c h => tierP_disjoint hkm c h) s.1 _

lemma tierSizes_cons (p : Constraint → Bool) (e : Constraint × Nat)
    (l : List (Constraint × Nat)) :
    tierSizes p (e :: l) = if p e.1 then e.2 :: tierSizes p l else tierSizes p l := by
  simp only [tierSizes, List.filter_cons]
  split <;> simp

lemma tier_partition (l : List (Constraint × Nat)) :
    (tierSizes (tierP 0) l).sum + (tierSizes (tierP 1) l).sum
      + (tierSizes (tierP 2) l).sum + (tierSizes (tierP 3) l).sum
      + (tierSizes (tierP 4) l).sum + (tierSizes (tierP 5) l).sum
      = (l.map Prod.snd).sum := by
  induction l with
  | nil => simp [tierSizes]
  | cons e rest ih =>
    obtain ⟨c, s⟩ := e
    rw [List.map_cons, List.sum_cons, ← ih,
      tierSizes_cons (tierP 0), tierSizes_cons (tierP 1), tierSizes_cons (tierP 2),
      tierSizes_cons (tierP 3), tierSizes_cons (tierP 4), tierSizes_cons (tierP 5)]
    cases c <;> simp [tierP, tierOf] <;> omega

/-- Modelled from the spec: the missing deficit pass of the layout solver
(spec section 4.1 step 5), not under `src/`. The deficit is absorbed in
descending priority order: Fill shrinks first, then Ratio, Percentage,
Length, Max, and Min shrinks only as a last resort, each tier saturating at
zero before the next tier is touched. -/
def shrinkTiers (l : List (Constraint × Nat)) (delta : Nat) : List (Constraint × Nat) :=
  (shrinkStep (tierP 5) (shrinkStep (tierP 4) (shrinkStep (tierP 3) (shrinkStep (tierP 2)
    (shrinkStep (tierP 1) (shrinkStep (tierP 0) (l, delta))))))).1

lemma shrinkTiers_spec (l : List (Constraint × Nat)) (delta : Nat) :
    (shrinkTiers l delta).map Prod.fst = l.map Prod.fst
    ∧ (delta ≤ (l.map Prod.snd).sum →
        ((shrinkTiers l delta).map Prod.snd).sum = (l.map Prod.snd).sum - delta)
    ∧ (∀ i e, l.get? i = some e → tierOf e.1 = 5 →
        (tierSizes (tierP 5) l).sum + delta ≤ (l.map Prod.snd).sum →
        (shrinkTiers l delta).get? i = some e) := by
  set s1 := shrinkStep (tierP 0) (l, delta) with hs1
  set s2 := shrinkStep (tierP 1) s1 with hs2
  set s3 := shrinkStep (tierP 2) s2 with hs3
  set s4 := shrinkStep (tierP 3) s3 with hs4
  set s5 := shrinkStep (tierP 4) s4 with hs5
  set s6 := shrinkStep (tierP 5) s5 with hs6
  have hout : shrinkTiers l delta = s6.1 := rfl
  -- tier sizes seen by each step, expressed over the original list
  have t1 : tierSizes (tierP 1) s1.1 = tierSizes (tierP 1) l := shrinkStep_tier 1 0 (by omega) _
  have t2 : tierSizes (tierP 2) s2.1 = tierSizes (tierP 2) l := by
    rw [hs2, shrinkStep_tier 2 1 (by omega), hs1, shrinkStep_tier 2 0 (by omega)]
  have t3 : tierSizes (tierP 3) s3.1 = tierSizes (tierP 3) l := by
    rw [hs3, shrinkStep_tier 3 2 (by omega), hs2, shrinkStep_tier 3 1 (by omega),
      hs1, shrinkStep_tier 3 0 (by omega)]
  have t4 : tierSizes (tierP 4) s4.1 = tierSizes (tierP 4) l := by
    rw [hs4, shrinkStep_tier 4 3 (by omega), hs3, shrinkStep_tier 4 2 (by omega),
      hs2, shrinkStep_tier 4 1 (by omega), hs1, shrinkStep_tier 4 0 (by omega)]
  have t5 : tierSizes (tierP 5) s5.1 = tierSizes (tierP 5) l := by
    rw [hs5, shrinkStep_tier 5 4 (by omega), hs4, shrinkStep_tier 5 3 (by omega),
      hs3, shrinkStep_tier 5 2 (by omega), hs2, shrinkStep_tier 5 1 (by omega),
      hs1, shrinkStep_tier 5 0 (by omega)]
  -- deficit bookkeeping
  have d1 : s1.2 = delta - (tierSizes (tierP 0) l).sum := shrinkStep_snd _ _
  have d2 : s2.2 = s1.2 - (tierSizes (tierP 1) l).sum := by
    rw [hs2, shrinkStep_snd, t1]
  have d3 : s3.2 = s2.2 - (tierSizes (tierP 2) l).sum := by
    rw [hs3, shrinkStep_snd, t2]
  have d4 : s4.2 = s3.2 - (tierSizes (tierP 3) l).sum := by
    rw [hs4, shrinkStep_snd, t3]
  have d5 : s5.2 = s4.2 - (tierSizes (tierP 4) l).sum := by
    rw [hs5, shrinkStep_snd, t4]
  have d6 : s6.2 = s5.2 - (tierSizes (tierP 5) l).sum := by
    rw [hs6, shrinkStep_snd, t5]
  have hpart := tier_partition l
  clear_value s1 s2 s3 s4 s5 s6
  refine ⟨?_, ?_, ?_⟩
  · rw [hout, hs6, shrinkStep_fst, hs5, shrinkStep_fst, hs4, shrinkStep_fst,
      hs3, shrinkStep_fst, hs2, shrinkStep_fst, hs1, shrinkStep_fst]
  · intro hle
    have i1 : (s1.1.map Prod.snd).sum + delta = (l.map Prod.snd).sum + s1.2
        ∧ s1.2 ≤ (s1.1.map Prod.snd).sum := by
      rw [hs1]
      exact shrinkStep_invariant (tierP 0) (l, delta) hle
    have i2 : (s2.1.map Prod.snd).sum + s1.2 = (s1.1.map Prod.snd).sum + s2.2
        ∧ s2.2 ≤ (s2.1.map Prod.snd).sum := by
      rw [hs2]
      exact shrinkStep_invariant (tierP 1) s1 i1.2
    have i3 : (s3.1.map Prod.snd).sum + s2.2 = (s2.1.map Prod.snd).sum + s3.2
        ∧ s3.2 ≤ (s3.1.map Prod.snd).sum := by
      rw [hs3]
      exact shrinkStep_invariant (tierP 2) s2 i2.2
    have i4 : (s4.1.map Prod.snd).sum + s3.2 = (s3.1.map Prod.snd).sum + s4.2
        ∧ s4.2 ≤ (s4.1.map Prod.snd).sum := by
      rw [hs4]
      exact shrinkStep_invariant (tierP 3) s3 i3.2
    have i5 : (s5.1.map Prod.snd).sum + s4.2 = (s4.1.map Prod.snd).sum + s5.2
        ∧ s5.2 ≤ (s5.1.map Prod.snd).sum := by
      rw [hs5]
      exact shrinkStep_invariant (tierP 4) s4 i4.2
    have i6 : (s6.1.map Prod.snd).sum + s5.2 = (s5.1.map Prod.snd).sum + s6.2
        ∧ s6.2 ≤ (s6.1.map Prod.snd).sum := by
      rw [hs6]
      exact shrinkStep_invariant (tierP 5) s5 i5.2
    have hz : s6.2 = 0 := by omega
    obtain ⟨e1, -⟩ := i1
    obtain ⟨e2, -⟩ := i2
    obtain ⟨e3, -⟩ := i3
    obtain ⟨e4, -⟩ := i4
    obtain ⟨e5, -⟩ := i5
    obtain ⟨e6, -⟩ := i6
    rw [hout]
    omega
  · intro i e he htier hcap
    have f0 : tierP 0 e.1 = false := by
      simp only [tierP, htier]
      norm_num
    have f1 : tierP 1 e.1 = false := by
      simp only [tierP, htier]
      norm_num
    have f2 : tierP 2 e.1 = false := by
      simp only [tierP, htier]
      norm_num
    have f3 : tierP 3 e.1 = false := by
      simp only [tierP, htier]
      norm_num
    have f4 : tierP 4 e.1 = false := by
      simp only [tierP, htier]
      norm_num
    have g1 : s1.1.get? i = some e := by
      rw [hs1]
      exact shrinkStep_get?_ne _ _ i e he f0
    have g2 : s2.1.get? i = some e := by
      rw [hs2]
      exact shrinkStep_get?_ne _ _ i e g1 f1
    have g3 : s3.1.get? i = some e := by
      rw [hs3]
      exact shrinkStep_get?_ne _ _ i e g2 f2
    have g4 : s4.1.get? i = some e := by
      rw [hs4]
      exact shrinkStep_get?_ne _ _ i e g3 f3
    have g5 : s5.1.get? i = some e := by
      rw [hs5]
      exact shrinkStep_get?_ne _ _ i e g4 f4
    have hz : s5.2 = 0 := by omega
    rw [hout, hs6, shrinkStep_zero _ _ hz]
    exact g5

/-- Last index (counting from `i`) of a constraint matching `p`, if any. -/
def lastIdxAux (p : Constraint → Bool) : Nat → List Constraint → Option Nat
  | _, [] => none
  | i, c :: cs =>
    match lastIdxAux p (i + 1) cs with
    | some j => some j
    | none => if p c then some i else none

/-- Last index of a constraint matching `p`, if any. -/
def lastIdxP (p : Constraint → Bool) (cs : List Constraint) : Option Nat :=
  lastIdxAux p 0 cs

/-- Modelled from the spec: under `Flex::Legacy` the leftover is dumped onto
the last segment of the lowest-priority tier present (spec section 4.1 step
6 together with the `Legacy` examples documented in `flex.rs`). `Fill` and
`Min` absorption is resolved before this point, so only the `Ratio`,
`Percentage`, `Length` and `Max` tiers are consulted, lowest priority
first; the fallback (never reached from `solve`) is the last constraint. -/
def legacyDumpIdx (cs : List Constraint) : Nat :=
  match lastIdxP (tierP 1) cs with
  | some i => i
  | none =>
    match lastIdxP (tierP 2) cs with
    | some i => i
    | none =>
      match lastIdxP (tierP 3) cs with
      | some i => i
      | none =>
        match lastIdxP (tierP 4) cs with
        | some i => i
        | none => cs.length - 1

lemma lastIdxAux_lt (p : Constraint → Bool) (cs : List Constraint) :
    ∀ i j, lastIdxAux p i cs = some j → j < i + cs.length := by
  induction cs with
  | nil => intro i j h; simp [lastIdxAux] at h
  | cons c rest ih =>
    intro i j h
    unfold lastIdxAux at h
    cases hrec : lastIdxAux p (i + 1) rest with
    | some j2 =>
      rw [hrec] at h
      have hlt := ih (i + 1) j2 hrec
      have hj : j2 = j := by simpa using h
      simp only [List.length_cons]
      omega
    | none =>
      rw [hrec] at h
      by_cases hp : p c
      · have hj : i = j := by simpa [hp] using h
        simp only [List.length_cons]
        omega
      · simp [hp] at h

lemma legacyDumpIdx_lt (cs : List Constraint) (h : cs ≠ []) :
    legacyDumpIdx cs < cs.length := by
  have hlen : 0 < cs.length := List.length_pos.mpr h
  unfold legacyDumpIdx lastIdxP
  cases h1 : lastIdxAux (tierP 1) 0 cs with
  | some i => simpa using lastIdxAux_lt _ cs 0 i h1
  | none =>
    cases h2 : lastIdxAux (tierP 2) 0 cs with
    | some i => simpa using lastIdxAux_lt _ cs 0 i h2
    | none =>
      cases h3 : lastIdxAux (tierP 3) 0 cs with
      | some i => simpa using lastIdxAux_lt _ cs 0 i h3
      | none =>
        cases h4 : lastIdxAux (tierP 4) 0 cs with
        | some i => simpa using lastIdxAux_lt _ cs 0 i h4
        | none => simpa using Nat.sub_lt hlen Nat.one_pos

/-- Modelled from the spec: the missing excess pass of the layout solver
(spec sections 3 and 4.1 step 4 and the section 8 examples), not under
`src/`. On excess, the `Fill` tier absorbs everything, proportionally to
the declared weights (evenly when all weights are zero); with no `Fill`
present the `Min` tier absorbs it evenly (spec section 3 table: `Min`
absorbs excess before `Length`/`Percentage`/`Ratio` do, matching the
section 8 example and the `flex.rs` `Legacy` diagrams); otherwise under
`Legacy` the excess grows the last segment of the lowest-priority tier,
under `SpaceBetween` with a single segment it grows that segment (per the
`flex.rs` diagram), and in every other case it is left over for the flex
mode's gap placement. -/
def growPhase (flex : Flex) (cs : List Constraint) (l : List (Constraint × Nat)) (e : Nat) :
    List (Constraint × Nat) × Nat :=
  if cs.any (tierP 0) then
    (addTier (tierP 0) l (splitWeighted e ((cs.filter (tierP 0)).map fillWeight)), 0)
  else if cs.any (tierP 5) then
    (addTier (tierP 5) l (splitEven e (cs.countP (tierP 5))), 0)
  else if flex = Flex.legacy ∧ cs.length ≠ 0 then
    (addAt l (legacyDumpIdx cs) e, 0)
  else if flex = Flex.spaceBetween ∧ cs.length = 1 then
    (addAt l 0 e, 0)
  else (l, e)

/-- Distributable length: the container minus the reserved inter-segment
spacing `spacing × (n − 1)` (saturating, spec section 4.1 step 1). -/
def distributable (container spacing n : Nat) : Nat := container - spacing * (n - 1)

/-- Each constraint paired with its baseline size against `d`. -/
def basePairs (d : Nat) (cs : List Constraint) : List (Constraint × Nat) :=
  cs.map fun c => (c, baseline d c)

/-- Modelled from the spec: the missing layout solver's size resolution
(spec section 4.1 steps 1–5), not under `src/`: compute baselines against
the distributable length, then resolve the excess (grow pass) or the
deficit (shrink pass); the second component is the leftover length that the
flex mode will place as gaps. -/
def layoutPieces (container : Nat) (cs : List Constraint) (spacing : Nat) (flex : Flex) :
    List (Constraint × Nat) × Nat :=
  if ((basePairs (distributable container spacing cs.length) cs).map Prod.snd).sum
      ≤ distributable container spacing cs.length then
    growPhase flex cs (basePairs (distributable container spacing cs.length) cs)
      (distributable container spacing cs.length
        - ((basePairs (distributable container spacing cs.length) cs).map Prod.snd).sum)
  else
    (shrinkTiers (basePairs (distributable container spacing cs.length) cs)
      (((basePairs (distributable container spacing cs.length) cs).map Prod.snd).sum
        - distributable container spacing cs.length), 0)

/-- Modelled from the spec: the gap-slot weights of each flex mode (spec
section 3, `Flex` table). Slot `i` of the `n + 1` slots is the gap placed
before segment `i`; the last slot is the trailing gap. `Legacy` and `Start`
place all leftover after the last segment, `End` before the first, `Center`
splits it evenly with the odd unit leading, `SpaceBetween` spreads it over
the `n − 1` interior gaps, `SpaceEvenly` over all `n + 1` gaps, and
`SpaceAround` doubles the interior gaps relative to the two outer ones. -/
def gapWeights (flex : Flex) (n : Nat) : List Nat :=
  if n = 0 then [1]
  else
    match flex with
    | .legacy => List.replicate n 0 ++ [1]
    | .start => List.replicate n 0 ++ [1]
    | .end_ => 1 :: List.replicate n 0
    | .center => 1 :: (List.replicate (n - 1) 0 ++ [1])
    | .spaceBetween => 0 :: (List.replicate (n - 1) 1 ++ [0])
    | .spaceEvenly => List.replicate (n + 1) 1
    | .spaceAround => 1 :: (List.replicate (n - 1) 2 ++ [1])

lemma gapWeights_length (flex : Flex) (n : Nat) : (gapWeights flex n).length = n + 1 := by
  unfold gapWeights
  split
  · rename_i h
    simp [h]
  · rename_i h
    cases flex <;> simp <;> omega

lemma gapWeights_ne_nil (flex : Flex) (n : Nat) : gapWeights flex n ≠ [] := by
  have h := gapWeights_length flex n
  intro hc
  rw [hc] at h
  simp at h

/-- The final segment lengths, one per constraint. -/
def layoutSizes (container : Nat) (cs : List Constraint) (spacing : Nat) (flex : Flex) :
    List Nat :=
  (layoutPieces container cs spacing flex).1.map Prod.snd

/-- The gaps inserted by the flex mode: the leftover length distributed
over the `n + 1` gap slots according to the mode's weights. -/
def layoutGaps (container : Nat) (cs : List Constraint) (spacing : Nat) (flex : Flex) :
    List Nat :=
  splitWeighted (layoutPieces container cs spacing flex).2 (gapWeights flex cs.length)

/-- Lay the segments out left to right: each segment is placed after the
gap assigned to its slot, and consecutive segments are additionally
separated by `spacing` (spec section 4.1 step 6). -/
def assemble (spacing : Nat) : Nat → List Nat → List Nat → List Segment
  | _, [], _ => []
  | pos, s :: sizes, gaps =>
    ⟨pos + gaps.headD 0, s⟩
      :: assemble spacing (pos + gaps.headD 0 + s + spacing) sizes gaps.tail

/-- Modelled from the spec: the layout solver entry point (spec sections
4.1 and 6), absent from `src/` (only its callers are present in the
example sources): reserve the inter-segment spacing, compute baselines,
resolve excess or deficit by tier priority, and lay the segments out with
the flex mode's gaps. -/
def solve (container : Nat) (cs : List Constraint) (spacing : Nat) (flex : Flex) :
    List Segment :=
  assemble spacing 0 (layoutSizes container cs spacing flex)
    (layoutGaps container cs spacing flex)

/-- The scrollbar thumb geometry: offset and length within the track. -/
structure ThumbGeometry where
  thumbOffset : Nat
  thumbLength : Nat
  deriving DecidableEq, Repr

/-- Modelled from the spec: the scrollbar thumb length (spec section 4.2),
not under `src/`: `max 1 (round (track × viewport / content))` when the
content length is positive, and the whole track when it is zero. -/
def thumbLengthOf (contentLength viewportLength trackLength : Nat) : Nat :=
  if contentLength = 0 then trackLength
  else Nat.max 1 (roundDiv (trackLength * viewportLength) contentLength)

/-- Modelled from the spec: the scrollbar geometry calculator (spec section
4.2), not under `src/` (only a caller is present in the example sources).
The position is clamped to the scrollable range `content − viewport`, and
`thumbOffset = round ((track − thumb) × clampedPosition / max 1 range)`. -/
def scrollbarGeometry (contentLength viewportLength position trackLength : Nat) :
    ThumbGeometry :=
  ⟨roundDiv
      ((trackLength - thumbLengthOf contentLength viewportLength trackLength)
        * (Nat.min position (contentLength - viewportLength)))
      (Nat.max 1 (contentLength - viewportLength)),
   thumbLengthOf contentLength viewportLength trackLength⟩

/-- Modelled from the spec: validated construction of a `Ratio` constraint
(spec sections 4.1 failure semantics, 6 and 7), not under `src/`: a zero
denominator is an invalid argument rejected at construction time. -/
def mkRatioChecked (num den : Nat) : Except String Constraint :=
  if den = 0 then Except.error "invalid argument: Ratio denominator must be nonzero"
  else Except.ok ( Constraint.ratio num den)

/-- Modelled from the spec: validated construction of a `Percentage`
constraint (spec section 6), not under `src/`: the value must be
non-negative. -/
def mkPercentageChecked (p : Int) : Except String Constraint :=
  if p < 0 then Except.error "invalid argument: Percentage must be non-negative"
  else Except.ok ( Constraint.percentage p.toNat)

/-- Modelled from the spec: validated construction of a `Fill` constraint
(spec section 6), not under `src/`: the weight must be non-negative. -/
def mkFillChecked (w : Int) : Except String Constraint :=
  if w < 0 then Except.error "invalid argument: Fill weight must be non-negative"
  else Except.ok ( Constraint.fill w.toNat)

/-- Well-formedness of a constraint: a `Ratio` must have a nonzero
denominator (spec sections 6 and 7); every other variant is well formed. -/
def wellFormed : Constraint → Prop := fun c =>
  match c with
  | .ratio _ den => den ≠ 0
  | _ => True

lemma basePairs_fst (d : Nat) (cs : List Constraint) :
    (basePairs d cs).map Prod.fst = cs := by
  simp [basePairs, List.map_map, Function.comp_def]

lemma basePairs_length (d : Nat) (cs : List Constraint) :
    (basePairs d cs).length = cs.length := by
  simp [basePairs]

lemma assemble_map_length (spacing : Nat) (sizes gaps : List Nat) (pos : Nat) :
    (assemble spacing pos sizes gaps).map Segment.length = sizes := by
  induction sizes generalizing pos gaps with
  | nil => rfl
  | cons s rest ih => simp [assemble, ih]

lemma assemble_length (spacing : Nat) (sizes gaps : List Nat) (pos : Nat) :
    (assemble spacing pos sizes gaps).length = sizes.length := by
  have h := congrArg List.length (assemble_map_length spacing sizes gaps pos)
  simpa using h

lemma assemble_get?_length (spacing : Nat) (sizes gaps : List Nat) (pos i : Nat) :
    ((assemble spacing pos sizes gaps).get? i).map Segment.length = sizes.get? i := by
  conv_rhs => rw [← assemble_map_length spacing sizes gaps pos]
  rw [List.get?_map]

lemma growPhase_fst (flex : Flex) (cs : List Constraint) (l : List (Constraint × Nat))
    (e : Nat) : (growPhase flex cs l e).1.map Prod.fst = l.map Prod.fst := by
  unfold growPhase
  split_ifs <;> simp [addTier_fst, addAt_fst]

lemma growPhase_sum (flex : Flex) (cs : List Constraint) (l : List (Constraint × Nat))
    (e : Nat) (hl : l.map Prod.fst = cs) :
    ((growPhase flex cs l e).1.map Prod.snd).sum + (growPhase flex cs l e).2
      = (l.map Prod.snd).sum + e := by
  have hcount : ∀ p : Constraint → Bool, (l.countP fun x => p x.1) = cs.countP p := by
    intro p
    rw [← hl, List.countP_map]
    rfl
  have hlen : l.length = cs.length := by
    have h := congrArg List.length hl
    simpa using h
  unfold growPhase
  split_ifs with h1 h2 h3 h4
  · -- Fill tier absorbs, proportionally to weight
    have hne : (cs.filter (tierP 0)).map fillWeight ≠ [] := by
      obtain ⟨c, hc, hpc⟩ := List.any_eq_true.mp h1
      have : c ∈ cs.filter (tierP 0) := List.mem_filter.mpr ⟨hc, hpc⟩
      intro hcontra
      rw [List.map_eq_nil] at hcontra
      rw [hcontra] at this
      simp at this
    have hvlen : (splitWeighted e ((cs.filter (tierP 0)).map fillWeight)).length
        = l.countP fun x => tierP 0 x.1 := by
      rw [splitWeighted_length, List.length_map, ← List.countP_eq_length_filter, hcount]
    rw [addTier_sum (tierP 0) l _ hvlen, splitWeighted_sum e hne]
    omega
  · -- Min tier absorbs evenly
    have hkpos : 0 < cs.countP (tierP 5) := by
      obtain ⟨c, hc, hpc⟩ := List.any_eq_true.mp h2
      exact List.countP_pos.mpr ⟨c, hc, hpc⟩
    have hvlen : (splitEven e (cs.countP (tierP 5))).length = l.countP fun x => tierP 5 x.1 := by
      rw [splitEven_length, hcount]
    rw [addTier_sum (tierP 5) l _ hvlen, splitEven_sum e hkpos]
    omega
  · -- Legacy: the last segment of the lowest-priority tier grows
    have hne : cs ≠ [] := by
      intro hc
      rw [hc] at h3
      simp at h3
    have hidx : legacyDumpIdx cs < l.length := by
      rw [hlen]
      exact legacyDumpIdx_lt cs hne
    rw [addAt_sum l _ e hidx]
    omega
  · -- SpaceBetween with a single segment: the segment grows
    have hidx : 0 < l.length := by omega
    rw [addAt_sum l _ e hidx]
    omega
  · -- leftover goes to the flex gaps
    rfl

lemma growPhase_get?_ge (flex : Flex) (cs : List Constraint) (l : List (Constraint × Nat))
    (e : Nat) (i : Nat) (ent : Constraint × Nat) (he : l.get? i = some ent) :
    ∃ ent2, (growPhase flex cs l e).1.get? i = some ent2
      ∧ ent2.1 = ent.1 ∧ ent.2 ≤ ent2.2 := by
  unfold growPhase
  split_ifs
  · exact addTier_get?_ge (tierP 0) l _ i ent he
  · exact addTier_get?_ge (tierP 5) l _ i ent he
  · exact addAt_get?_ge l _ e i ent he
  · exact addAt_get?_ge l _ e i ent he
  · exact ⟨ent, he, rfl, le_refl _⟩

lemma layoutPieces_fst (container : Nat) (cs : List Constraint) (spacing : Nat)
    (flex : Flex) : (layoutPieces container cs spacing flex).1.map Prod.fst = cs := by
  unfold layoutPieces
  split
  · rw [growPhase_fst, basePairs_fst]
  · rw [(shrinkTiers_spec _ _).1, basePairs_fst]

lemma layoutSizes_length (container : Nat) (cs : List Constraint) (spacing : Nat)
    (flex : Flex) : (layoutSizes container cs spacing flex).length = cs.length := by
  have h := congrArg List.length (layoutPieces_fst container cs spacing flex)
  simpa [layoutSizes] using h

lemma solve_length_eq (container : Nat) (cs : List Constraint) (spacing : Nat)
    (flex : Flex) : (solve container cs spacing flex).length = cs.length := by
  rw [solve, assemble_length, layoutSizes_length]

lemma layout_sum (container : Nat) (cs : List Constraint) (spacing : Nat) (flex : Flex) :
    (layoutSizes container cs spacing flex).sum + (layoutPieces container cs spacing flex).2
      = distributable container spacing cs.length := by
  unfold layoutSizes layoutPieces
  split
  · rename_i hle
    rw [growPhase_sum flex cs _ _ (basePairs_fst _ _)]
    omega
  · rename_i hgt
    have hsum := (shrinkTiers_spec (basePairs (distributable container spacing cs.length) cs)
      (((basePairs (distributable container spacing cs.length) cs).map Prod.snd).sum
        - distributable container spacing cs.length)).2.1 (by omega)
    rw [hsum]
    omega

lemma gaps_sum (container : Nat) (cs : List Constraint) (spacing : Nat) (flex : Flex) :
    (layoutGaps container cs spacing flex).sum = (layoutPieces container cs spacing flex).2 := by
  unfold layoutGaps
  exact splitWeighted_sum _ (gapWeights_ne_nil flex cs.length)

lemma solve_coverage (container : Nat) (cs : List Constraint) (spacing : Nat) (flex : Flex)
    (h : spacing * (cs.length - 1) ≤ container) :
    ((solve container cs spacing flex).map Segment.length).sum
      + spacing * (cs.length - 1) + (layoutGaps container cs spacing flex).sum = container := by
  rw [solve, assemble_map_length, gaps_sum]
  have hs := layout_sum container cs spacing flex
  unfold distributable at hs
  omega

lemma minFloor_tierSum (d : Nat) (cs : List Constraint) :
    (tierSizes (tierP 5) (basePairs d cs)).sum = (cs.map minFloor).sum := by
  induction cs with
  | nil => rfl
  | cons c rest ih =>
    have hb : basePairs d (c :: rest) = (c, baseline d c) :: basePairs d rest := rfl
    rw [hb, tierSizes_cons]
    cases c <;> simp [tierP, tierOf, minFloor, baseline, ih]

lemma solve_min_floor (container : Nat) (cs : List Constraint) (spacing : Nat) (flex : Flex)
    (i v : Nat) (seg : Segment) (hc : cs.get? i = some (Constraint.min v))
    (hroom : (cs.map minFloor).sum ≤ distributable container spacing cs.length)
    (hseg : (solve container cs spacing flex).get? i = some seg) :
    v ≤ seg.length := by
  have hbase : (basePairs (distributable container spacing cs.length) cs).get? i
      = some (Constraint.min v, v) := by
    unfold basePairs
    rw [List.get?_map, hc]
    rfl
  have hpiece : ∃ ent, (layoutPieces container cs spacing flex).1.get? i = some ent
      ∧ v ≤ ent.2 := by
    unfold layoutPieces
    split
    · rename_i hle
      obtain ⟨ent2, hg, -, hge⟩ := growPhase_get?_ge flex cs _ _ i _ hbase
      exact ⟨ent2, hg, hge⟩
    · rename_i hgt
      have hcap2 : (tierSizes (tierP 5)
            (basePairs (distributable container spacing cs.length) cs)).sum
          + (((basePairs (distributable container spacing cs.length) cs).map Prod.snd).sum
            - distributable container spacing cs.length)
          ≤ ((basePairs (distributable container spacing cs.length) cs).map Prod.snd).sum := by
        rw [minFloor_tierSum]
        omega
      have hmin := (shrinkTiers_spec (basePairs (distributable container spacing cs.length) cs)
        (((basePairs (distributable container spacing cs.length) cs).map Prod.snd).sum
          - distributable container spacing cs.length)).2.2 i (Constraint.min v, v)
        hbase rfl hcap2
      exact ⟨(Constraint.min v, v), hmin, le_refl v⟩
  obtain ⟨ent, hent, hge⟩ := hpiece
  have hsz : (layoutSizes container cs spacing flex).get? i = some ent.2 := by
    unfold layoutSizes
    rw [List.get?_map, hent]
    rfl
  have hlink := assemble_get?_length spacing (layoutSizes container cs spacing flex)
    (layoutGaps container cs spacing flex) 0 i
  rw [← solve] at hlink
  rw [hseg, hsz] at hlink
  have : seg.length = ent.2 := by simpa using hlink
  omega

lemma legacy_leftover_zero (container : Nat) (cs : List Constraint) (spacing : Nat)
    (h : cs ≠ []) : (layoutPieces container cs spacing Flex.legacy).2 = 0 := by
  have hn : cs.length ≠ 0 := by
    intro hc
    exact h (List.length_eq_zero.mp hc)
  unfold layoutPieces
  split
  · unfold growPhase
    split_ifs with h1 h2 h3 h4
    · rfl
    · rfl
    · rfl
    · exact absurd ⟨rfl, hn⟩ h3
    · exact absurd ⟨rfl, hn⟩ h3
  · rfl

lemma sum_zero_head (gaps : List Nat) (h : gaps.sum = 0) : gaps.headD 0 = 0 := by
  cases gaps with
  | nil => rfl
  | cons g gs =>
    simp only [List.sum_cons] at h
    simp only [List.headD]
    omega

lemma sum_zero_head' (gaps : List Nat) (h : gaps.sum = 0) : gaps.head?.getD 0 = 0 := by
  cases gaps with
  | nil => rfl
  | cons g gs =>
    simp only [List.sum_cons] at h
    simp only [List.head?, Option.getD]
    omega

lemma legacy_first_offset (container : Nat) (cs : List Constraint) (spacing : Nat)
    (h : cs ≠ []) :
    ((solve container cs spacing Flex.legacy).head?).map Segment.offset = some 0 := by
  have hlen : (layoutSizes container cs spacing Flex.legacy).length = cs.length :=
    layoutSizes_length _ _ _ _
  have hpos : 0 < (layoutSizes container cs spacing Flex.legacy).length := by
    rw [hlen]
    exact List.length_pos.mpr h
  obtain ⟨s, rest, hsz⟩ := List.exists_cons_of_ne_nil (List.length_pos.mp hpos)
  have hg : (layoutGaps container cs spacing Flex.legacy).head?.getD 0 = 0 := by
    apply sum_zero_head'
    rw [gaps_sum]
    exact legacy_leftover_zero container cs spacing h
  rw [solve, hsz]
  simp [assemble, hg]

lemma roundDiv_le (a b k : Nat) (h : a ≤ k * b) : roundDiv a b ≤ k := by
  unfold roundDiv
  rcases Nat.eq_zero_or_pos b with hb | hb
  · simp [hb]
  · have h2 : k * (2 * b) = 2 * (k * b) := by ring
    have h1 : 2 * a + b ≤ k * (2 * b) + b := by omega
    calc (2 * a + b) / (2 * b) ≤ (k * (2 * b) + b) / (2 * b) := Nat.div_le_div_right h1
      _ = k + b / (2 * b) := by rw [Nat.mul_comm k (2 * b), Nat.mul_add_div (by omega)]
      _ = k := by rw [Nat.div_eq_of_lt (by omega), Nat.add_zero]

lemma solve_empty (container spacing : Nat) (flex : Flex) :
    solve container [] spacing flex = [] := by
  have h0 : layoutSizes container [] spacing flex = [] :=
    List.length_eq_zero.mp (by simpa using layoutSizes_length container [] spacing flex)
  rw [solve, h0]
  rfl

lemma solve_zero_container (cs : List Constraint) (spacing : Nat) (flex : Flex)
    (seg : Segment) (h : seg ∈ solve 0 cs spacing flex) : seg.length = 0 := by
  have hsum : (layoutSizes 0 cs spacing flex).sum = 0 := by
    have hls := layout_sum 0 cs spacing flex
    unfold distributable at hls
    omega
  have hmem : seg.length ∈ (solve 0 cs spacing flex).map Segment.length :=
    List.mem_map_of_mem Segment.length h
  rw [solve, assemble_map_length] at hmem
  have hle : seg.length ≤ (layoutSizes 0 cs spacing flex).sum :=
    List.single_le_sum (fun x _ => Nat.zero_le x) _ hmem
  omega

lemma thumbLengthOf_pos (c v t : Nat) (ht : 1 ≤ t) : 1 ≤ thumbLengthOf c v t := by
  unfold thumbLengthOf
  split
  · exact ht
  · exact Nat.le_max_left 1 _

lemma thumbLengthOf_le (c v t : Nat) (hvc : v ≤ c) (ht : 1 ≤ t) : thumbLengthOf c v t ≤ t := by
  unfold thumbLengthOf
  split
  · exact le_refl t
  · rename_i hc
    have hdiv : roundDiv (t * v) c ≤ t := roundDiv_le _ _ _ (Nat.mul_le_mul_left t hvc)
    exact Nat.max_le.mpr ⟨ht, hdiv⟩

lemma scrollbar_invariant (c v p t : Nat) (hvc : v ≤ c) (ht : 1 ≤ t) :
    1 ≤ (scrollbarGeometry c v p t).thumbLength
    ∧ (scrollbarGeometry c v p t).thumbOffset + (scrollbarGeometry c v p t).thumbLength ≤ t := by
  have hpos := thumbLengthOf_pos c v t ht
  have hle := thumbLengthOf_le c v t hvc ht
  constructor
  · exact hpos
  · have hclamp : Nat.min p (c - v) ≤ Nat.max 1 (c - v) :=
      le_trans (Nat.min_le_right _ _) (Nat.le_max_right _ _)
    have hoff : (scrollbarGeometry c v p t).thumbOffset ≤ t - thumbLengthOf c v t := by
      apply roundDiv_le
      exact Nat.mul_le_mul_left _ hclamp
    have hthumb : (scrollbarGeometry c v p t).thumbLength = thumbLengthOf c v t := rfl
    rw [hthumb]
    omega

/-- The seven justification policies, in declaration order of `Flex` in
`ratatui-core/src/layout/flex.rs`. -/
def allFlexModes : List Flex :=
  [Flex.legacy, Flex.start, Flex.end_, Flex.center,
   Flex.spaceBetween, Flex.spaceEvenly, Flex.spaceAround]

/-- C1 (counterexample): with container 0, two `Length(0)` constraints and
spacing 5, the reserved spacing `spacing × (n − 1) = 5` saturates against
the container, so the claimed identity
`sum(lengths) + spacing × (n − 1) + total_gap = container` fails (the left
side is 5, the container is 0). -/
theorem c1_coverage_counterexample :
    ¬ (((solve 0 [Constraint.length 0, Constraint.length 0] 5 Flex.start).map
          Segment.length).sum
        + 5 * (([Constraint.length 0, Constraint.length 0] : List Constraint).length - 1)
        + (layoutGaps 0 [Constraint.length 0, Constraint.length 0] 5 Flex.start).sum
        = 0) := by
  decide

/-- C1 (amended): whenever the reserved spacing `spacing × (n − 1)` fits in
the container, the sum of all output segment lengths plus the reserved
spacing plus all gap space inserted by the flex mode equals the container
length exactly, for every constraint list, spacing and flex mode. -/
theorem c1_coverage :
    ∀ (container : Nat) (cs : List Constraint) (spacing : Nat) (flex : Flex),
      spacing * (cs.length - 1) ≤ container →
      ((solve container cs spacing flex).map Segment.length).sum
        + spacing * (cs.length - 1)
        + (layoutGaps container cs spacing flex).sum = container :=
  fun container cs spacing flex h => solve_coverage container cs spacing flex h

/-- C1 (witness): the coverage identity at container 83, three `Length(20)`
constraints, spacing 1 and `SpaceEvenly`. -/
theorem c1_coverage_witness :
    1 * (([Constraint.length 20, Constraint.length 20, Constraint.length 20] :
        List Constraint).length - 1) ≤ 83
    ∧ ((solve 83 [Constraint.length 20, Constraint.length 20, Constraint.length 20] 1
          Flex.spaceEvenly).map Segment.length).sum
        + 1 * (([Constraint.length 20, Constraint.length 20, Constraint.length 20] :
            List Constraint).length - 1)
        + (layoutGaps 83 [Constraint.length 20, Constraint.length 20, Constraint.length 20] 1
            Flex.spaceEvenly).sum = 83 :=
  ⟨by decide,
   c1_coverage 83 [Constraint.length 20, Constraint.length 20, Constraint.length 20] 1
     Flex.spaceEvenly (by decide)⟩

/-- C2 (counterexample): the claim fails on two counts. With two `Min(20)`
constraints and container 20 (so container ≥ 20), the second `Min(20)`
segment has length 10 < 20, refuting the unconditional floor; and with
`[Min(20), Max(20)]` at container 80 under `Start`, the `Min(20)` segment
has length 60 > 20, so a `Min` segment does grow past its baseline (as the
`flex.rs` `Legacy` diagram and the spec's section 8 example document). -/
theorem c2_priority_counterexample :
    (solve 20 [Constraint.min 20, Constraint.min 20] 0 Flex.start).get? 1
        = some ⟨10, 10⟩
    ∧ (10 : Nat) < 20 ∧ (20 : Nat) ≤ 20
    ∧ (solve 80 [Constraint.min 20, Constraint.max 20] 0 Flex.start).get? 0
        = some ⟨0, 60⟩
    ∧ baseline 80 (Constraint.min 20) = 20 ∧ (20 : Nat) < 60 := by
  decide

/-- C2 (amended): deficit is absorbed in the fixed order Fill, Ratio,
Percentage, Length, Max, Min (Min shrinks last); consequently a `Min(v)`
constraint's output segment never has length below `v` whenever the sum of
all `Min` floors fits into the distributable length
`container − spacing × (n − 1)` — in particular a sole `Min(20)` with
distributable length at least 20 never drops below 20. (On excess, `Min`
may grow beyond its baseline: Fill absorbs first, and with no Fill present
the Min tier absorbs.) -/
theorem c2_min_floor :
    ∀ (container : Nat) (cs : List Constraint) (spacing : Nat) (flex : Flex)
      (i v : Nat) (seg : Segment),
      cs.get? i = some (Constraint.min v) →
      (cs.map minFloor).sum ≤ container - spacing * (cs.length - 1) →
      (solve container cs spacing flex).get? i = some seg →
      v ≤ seg.length :=
  fun container cs spacing flex i v seg hc hroom hseg =>
    solve_min_floor container cs spacing flex i v seg hc hroom hseg

/-- C2 (witness): the floor at container 100, constraints
`[Min(20), Length(30)]`, spacing 0, `Start`: the `Min(20)` segment has
length 70 ≥ 20. -/
theorem c2_min_floor_witness :
    ([Constraint.min 20, Constraint.length 30] : List Constraint).get? 0
        = some (Constraint.min 20)
    ∧ (([Constraint.min 20, Constraint.length 30] : List Constraint).map minFloor).sum
        ≤ 100 - 0 * (([Constraint.min 20, Constraint.length 30] : List Constraint).length - 1)
    ∧ (solve 100 [Constraint.min 20, Constraint.length 30] 0 Flex.start).get? 0
        = some ⟨0, 70⟩
    ∧ 20 ≤ (Segment.mk 0 70).length :=
  ⟨by decide, by decide, by decide,
   c2_min_floor 100 [Constraint.min 20, Constraint.length 30] 0 Flex.start 0 20 ⟨0, 70⟩
     (by decide) (by decide) (by decide)⟩

/-- C3: under `Flex::Legacy` the documented example holds —
`solve 80 [Length 20, Length 20, Length 20] 0 Legacy` yields
`[(0,20), (20,20), (40,40)]` with the excess 20 appended to the last
segment — and in general `Legacy` inserts no gap at all (all leftover goes
into a segment) and the first segment starts at offset 0. -/
theorem c3_legacy :
    solve 80 [Constraint.length 20, Constraint.length 20, Constraint.length 20] 0 Flex.legacy
        = [⟨0, 20⟩, ⟨20, 20⟩, ⟨40, 40⟩]
    ∧ (∀ (container : Nat) (cs : List Constraint) (spacing : Nat), cs ≠ [] →
        (layoutGaps container cs spacing Flex.legacy).sum = 0
        ∧ ((solve container cs spacing Flex.legacy).head?).map Segment.offset = some 0) :=
  ⟨by decide,
   fun container cs spacing h =>
     ⟨by rw [gaps_sum]; exact legacy_leftover_zero container cs spacing h,
      legacy_first_offset container cs spacing h⟩⟩

/-- C3 (witness): the `Legacy` no-gap and zero-first-offset facts at
container 50, a single `Length(1)` constraint and spacing 2. -/
theorem c3_legacy_witness :
    ([Constraint.length 1] : List Constraint) ≠ []
    ∧ ((layoutGaps 50 [Constraint.length 1] 2 Flex.legacy).sum = 0
        ∧ ((solve 50 [Constraint.length 1] 2 Flex.legacy).head?).map Segment.offset
            = some 0) :=
  ⟨by decide, c3_legacy.2 50 [Constraint.length 1] 2 (by decide)⟩

/-- C4: the solver is total over its input type by construction; the empty
constraint list yields the empty segment sequence, a zero container yields
only zero-length segments, and segment lengths are naturals, so they are
never negative (saturating arithmetic clamps at zero). -/
theorem c4_totality :
    (∀ (container spacing : Nat) (flex : Flex), solve container [] spacing flex = [])
    ∧ (∀ (cs : List Constraint) (spacing : Nat) (flex : Flex) (seg : Segment),
        seg ∈ solve 0 cs spacing flex → seg.length = 0)
    ∧ (∀ (container : Nat) (cs : List Constraint) (spacing : Nat) (flex : Flex)
        (seg : Segment), seg ∈ solve container cs spacing flex → 0 ≤ seg.length) :=
  ⟨fun container spacing flex => solve_empty container spacing flex,
   fun cs spacing flex seg h => solve_zero_container cs spacing flex seg h,
   fun _ _ _ _ _ _ => Nat.zero_le _⟩

/-- C4 (witness): the zero-container clause at `[Length 5]` under `Start`
(whose sole output segment is `(0, 0)`), and the empty list at container
7. -/
theorem c4_totality_witness :
    solve 7 [] 3 Flex.center = []
    ∧ (⟨0, 0⟩ : Segment) ∈ solve 0 [Constraint.length 5] 0 Flex.start
    ∧ (⟨0, 0⟩ : Segment).length = 0 :=
  ⟨c4_totality.1 7 3 Flex.center, by decide,
   c4_totality.2.1 [Constraint.length 5] 0 Flex.start ⟨0, 0⟩ (by decide)⟩

/-- C5: `solve 80 [Min 20, Max 20] 0 Start` yields `[(0,60), (60,20)]`:
with no `Fill` present the `Min` tier absorbs the 40 units of excess. -/
theorem c5_min_absorbs :
    solve 80 [Constraint.min 20, Constraint.max 20] 0 Flex.start
      = [⟨0, 60⟩, ⟨60, 20⟩] := by
  decide

/-- C6: the scrollbar geometry at content 100, viewport 10, position 50,
track 20 is thumb length 2 and thumb offset 10; zero content makes the
thumb fill the whole track at offset 0; and an out-of-range position is
clamped (position 1000 on the same inputs gives offset 18, the track end). -/
theorem c6_scrollbar_example :
    scrollbarGeometry 100 10 50 20 = ⟨10, 2⟩
    ∧ (∀ v p t, scrollbarGeometry 0 v p t = ⟨0, t⟩)
    ∧ scrollbarGeometry 100 10 1000 20 = ⟨18, 2⟩ := by
  refine ⟨by decide, ?_, by decide⟩
  intro v p t
  simp [scrollbarGeometry, thumbLengthOf, roundDiv]

/-- C7: for every content length at least the viewport length and every
track of length at least 1, the thumb has length at least 1 and ends within
the track: `thumbOffset + thumbLength ≤ trackLength`. -/
theorem c7_scrollbar_invariant :
    ∀ (c v p t : Nat), v ≤ c → 1 ≤ t →
      1 ≤ (scrollbarGeometry c v p t).thumbLength
      ∧ (scrollbarGeometry c v p t).thumbOffset
          + (scrollbarGeometry c v p t).thumbLength ≤ t :=
  fun c v p t hvc ht => scrollbar_invariant c v p t hvc ht

/-- C7 (witness): the invariant at content 100, viewport 10, position 50,
track 20. -/
theorem c7_scrollbar_invariant_witness :
    (10 : Nat) ≤ 100 ∧ (1 : Nat) ≤ 20
    ∧ (1 ≤ (scrollbarGeometry 100 10 50 20).thumbLength
        ∧ (scrollbarGeometry 100 10 50 20).thumbOffset
            + (scrollbarGeometry 100 10 50 20).thumbLength ≤ 20) :=
  ⟨by decide, by decide,
   c7_scrollbar_invariant 100 10 50 20 (by decide) (by decide)⟩

/-- C8: constraint construction validates its arguments: a `Ratio` with
denominator 0 is rejected with an invalid-argument error and every
successfully constructed `Ratio` is well formed (nonzero denominator, so no
zero-denominator division can arise from validated constraints mid-solve);
negative `Percentage` values and negative `Fill` weights are likewise
rejected. -/
theorem c8_construction_validates :
    (∀ num : Nat, mkRatioChecked num 0
        = Except.error "invalid argument: Ratio denominator must be nonzero")
    ∧ (∀ (num den : Nat) (c : Constraint), mkRatioChecked num den = Except.ok c →
        wellFormed c)
    ∧ (∀ p : Int, p < 0 → mkPercentageChecked p
        = Except.error "invalid argument: Percentage must be non-negative")
    ∧ (∀ w : Int, w < 0 → mkFillChecked w
        = Except.error "invalid argument: Fill weight must be non-negative") := by
  refine ⟨fun num => rfl, ?_, ?_, ?_⟩
  · intro num den c h
    unfold mkRatioChecked at h
    split at h
    · exact absurd h (by simp)
    · rename_i hden
      have hc : c = Constraint.ratio num den := by
        simpa using h.symm
      rw [hc]
      exact hden
  · intro p hp
    unfold mkPercentageChecked
    simp [hp]
  · intro w hw
    unfold mkFillChecked
    simp [hw]

/-- C8 (witness): `Ratio 7/0` is rejected, `Ratio 1/2` constructs a
well-formed constraint, and `Percentage (-1)` and `Fill (-3)` are
rejected. -/
theorem c8_construction_validates_witness :
    mkRatioChecked 7 0 = Except.error "invalid argument: Ratio denominator must be nonzero"
    ∧ wellFormed ( Constraint.ratio 1 2)
    ∧ ((-1 : Int) < 0
        ∧ mkPercentageChecked (-1)
            = Except.error "invalid argument: Percentage must be non-negative")
    ∧ ((-3 : Int) < 0
        ∧ mkFillChecked (-3)
            = Except.error "invalid argument: Fill weight must be non-negative") :=
  ⟨c8_construction_validates.1 7,
   c8_construction_validates.2.1 1 2 ( Constraint.ratio 1 2) rfl,
   ⟨by decide, c8_construction_validates.2.2.1 (-1) (by decide)⟩,
   ⟨by decide, c8_construction_validates.2.2.2 (-3) (by decide)⟩⟩

/-- C9: `Flex` is a closed enumeration of exactly the seven justification
policies `Legacy, Start, End, Center, SpaceBetween, SpaceEvenly,
SpaceAround`: every value is one of the seven listed modes, the seven are
pairwise distinct, and the solver consumes exactly one `Flex` value per
call (its type). -/
theorem c9_flex_closed :
    (∀ f : Flex, f ∈ allFlexModes) ∧ allFlexModes.Nodup ∧ allFlexModes.length = 7 :=
  ⟨fun f => by cases f <;> decide, by decide, by decide⟩

/-- C10: the solver returns exactly one segment per input constraint: the
output list length always equals the number of constraints, for every
container length, spacing and flex mode. -/
theorem c10_one_segment_per_constraint :
    ∀ (container : Nat) (cs : List Constraint) (spacing : Nat) (flex : Flex),
      (solve container cs spacing flex).length = cs.length :=
  fun container cs spacing flex => solve_length_eq container cs spacing flex

end Ratatui
